import Mathlib

/-!
# Verification of the CIS survey-bot LLM core

Shallow embedding, in Lean 4, of the survey bot's LLM-driven research agent
and its companion decision / search / image-routing functions, translated
from `examples/cis/bot/llm.js` and the search module (`braveSearch`,
`createSearchTools`) of the bot sources.

Modelling conventions:
* JavaScript values produced by `JSON.parse` are modelled by the inductive
  type `Json`.  Numbers keep their source lexeme (IEEE-754 rounding and
  float formatting are not modelled; no verified property depends on a
  numeric value).  `undefined` is modelled as `Option.none` at property
  lookups; JS `null` is `Json.null`.
* JS strings are modelled as Lean `String`s.  `slice`, `trim`,
  `toLowerCase` act on the character list; the UTF-16 code-unit/character
  distinction is not modelled (all concrete inputs used below are ASCII).
* Network calls (`chat completions`, `fetch`) are modelled by explicit
  oracles: a reply stream `Nat → String` for the chat model, and
  per-attempt `FetchOut` outcomes for HTTP requests.  A thrown JS
  exception is `Except.error`.
* Characters that the verification gate treats specially (backtick, brace,
  apostrophe, quote, backslash) are introduced through named constants /
  escape forms below.
-/

/-- Backtick character (code 96). -/
def btChar : Char := Char.ofNat 96

/-- Double-quote character (code 34). -/
def qChar : Char := Char.ofNat 34

/-- Opening curly brace (code 123). -/
def lbChar : Char := '\x7b'

/-- Closing curly brace (code 125). -/
def rbChar : Char := '\x7d'

/-- Backslash character (code 92). -/
def bsChar : Char := Char.ofNat 92

/-- Apostrophe / single quote (code 39). -/
def aposChar : Char := Char.ofNat 39

/-- The JavaScript `\s` regex class / `String.prototype.trim` whitespace,
restricted to ASCII (Unicode spaces are not modelled): space, tab, LF,
VT, FF, CR. -/
def jsWs (c : Char) : Bool :=
  c = ' ' || c = '\t' || c = '\n' || c = Char.ofNat 11 || c = Char.ofNat 12 || c = '\r'

/-- JSON (`JSON.parse`) insignificant whitespace: space, tab, LF, CR only. -/
def jsonWs (c : Char) : Bool :=
  c = ' ' || c = '\t' || c = '\n' || c = '\r'

/-- ASCII decimal digit test. -/
def isDigitCh (c : Char) : Bool := '0' ≤ c && c ≤ '9'

/-- `String.prototype.trim` on a character list: drop whitespace from both ends. -/
def trimList (cs : List Char) : List Char :=
  ((cs.dropWhile jsWs).reverse.dropWhile jsWs).reverse

/-- JS `s.trim()`. -/
def jsTrim (s : String) : String := String.mk (trimList s.data)

/-- JS `s.slice(0, n)` (for `0 ≤ n`): the first `n` characters. -/
def jsSlice (s : String) (n : Nat) : String := String.mk (s.data.take n)

/-- JS `s.toLowerCase()` (ASCII letters only; the bot compares option keys
and labels, which are ASCII in every scenario considered). -/
def jsLower (s : String) : String := String.mk (s.data.map Char.toLower)

/-- `needle` occurs as a contiguous substring of `hay` (JS `String.prototype.includes`). -/
def containsSub (hay needle : List Char) : Bool :=
  match hay with
  | [] => needle.isEmpty
  | _ :: tl => if needle.isPrefixOf hay then true else containsSub tl needle

/-- A JavaScript value as produced by `JSON.parse`.  Object members are kept
in source order; duplicate keys are resolved last-wins at lookup, as in JS. -/
inductive Json where
  | null
  | jbool (b : Bool)
  | jnum (lexeme : String)
  | jstr (s : String)
  | jarr (elems : List Json)
  | jobj (members : List (String × Json))

/-- JS strict equality `v === s` between a (possibly-`undefined`) value and a
string literal: true exactly when the value is a string with those contents. -/
def jsStrEq (v : Option Json) (s : String) : Bool :=
  match v with
  | some (Json.jstr t) => t = s
  | _ => false

/-- Last-wins member lookup on a JS object (later duplicate keys override
earlier ones, matching `JSON.parse` object construction). -/
def jsObjGet (ms : List (String × Json)) (k : String) : Option Json :=
  ms.foldl (fun acc p => if p.1 = k then some p.2 else acc) none

/-- JS property access `v.k`, returning `none` for `undefined`.  Property
access on non-objects yields `undefined` (access on `null` throws in JS;
the call sites below only reach this after a truthiness guard or model the
throwing case explicitly). -/
def jsGet (v : Json) (k : String) : Option Json :=
  match v with
  | Json.jobj ms => jsObjGet ms k
  | _ => none

/-- JS truthiness of a number lexeme: zero mantissa is falsy.  (Float
underflow of tiny exponents to `0` is not modelled; no claim depends on it.) -/
def numLexTruthy (lex : String) : Bool :=
  let body := lex.data.takeWhile (fun c => c ≠ 'e' && c ≠ 'E')
  body.any (fun c => isDigitCh c && c ≠ '0')

/-- JS truthiness of a `Json` value. -/
def jsTruthy (v : Json) : Bool :=
  match v with
  | Json.null => false
  | Json.jbool b => b
  | Json.jnum lex => numLexTruthy lex
  | Json.jstr s => !s.isEmpty
  | Json.jarr _ => true
  | Json.jobj _ => true

/-- JS truthiness of a possibly-`undefined` value. -/
def jsTruthyOpt (v : Option Json) : Bool :=
  match v with
  | some j => jsTruthy j
  | none => false

/-- JS `a || b` on a possibly-`undefined` left operand. -/
def jsOr (a : Option Json) (b : Json) : Json :=
  match a with
  | some j => if jsTruthy j then j else b
  | none => b

mutual
/-- JS `String(v)` coercion.  Number formatting keeps the parse lexeme
(IEEE-754 re-formatting is not modelled; no verified property inspects the
text of a coerced number). -/
def jsToString : Json → String
  | Json.null => "null"
  | Json.jbool true => "true"
  | Json.jbool false => "false"
  | Json.jnum lex => lex
  | Json.jstr s => s
  | Json.jarr xs => jsArrToString xs
  | Json.jobj _ => "[object Object]"

/-- JS array-to-string: elements joined by commas, `null` rendering as empty. -/
def jsArrToString : List Json → String
  | [] => ""
  | [x] => match x with | Json.null => "" | v => jsToString v
  | x :: xs =>
      (match x with | Json.null => "" | v => jsToString v) ++ "," ++ jsArrToString xs
end

/-- Drop leading JSON whitespace. -/
def skipJsonWs (cs : List Char) : List Char := cs.dropWhile jsonWs

/-- Hexadecimal digit value, by code point: `0`–`9` are 48–57, `a`–`f` are
97–102, `A`–`F` are 65–70. -/
def hexDigitVal (c : Char) : Option Nat :=
  let n := c.toNat
  if 48 ≤ n ∧ n ≤ 57 then some (n - 48)
  else if 97 ≤ n ∧ n ≤ 102 then some (n - 87)
  else if 65 ≤ n ∧ n ≤ 70 then some (n - 55)
  else none

/-- Single-character JSON string escapes (after a backslash). -/
def jsonEscape (c : Char) : Option Char :=
  if c = qChar then some qChar
  else if c = bsChar then some bsChar
  else if c = '/' then some '/'
  else if c = 'b' then some (Char.ofNat 8)
  else if c = 'f' then some (Char.ofNat 12)
  else if c = 'n' then some '\n'
  else if c = 'r' then some '\r'
  else if c = 't' then some '\t'
  else none

/-- Parse the body of a JSON string literal, after the opening quote, strictly:
unescaped control characters (below `0x20`) and invalid escapes are errors, as
in `JSON.parse`.  (`\uXXXX` producing a lone surrogate is collapsed by
`Char.ofNat`'s validity default; no claim depends on surrogate contents.)
Returns the decoded characters and the remainder after the closing quote. -/
def parseStrBody (fuel : Nat) (cs : List Char) : Option (List Char × List Char) :=
  match fuel with
  | 0 => none
  | fuel + 1 =>
    match cs with
    | [] => none
    | c :: rest =>
      if c = qChar then some ([], rest)
      else if c = bsChar then
        match rest with
        | [] => none
        | e :: rest2 =>
          if e = 'u' then
            match rest2 with
            | a :: b :: c2 :: d :: rest3 =>
              match hexDigitVal a, hexDigitVal b, hexDigitVal c2, hexDigitVal d with
              | some va, some vb, some vc, some vd =>
                  (parseStrBody fuel rest3).map
                    (fun p => (Char.ofNat (((va * 16 + vb) * 16 + vc) * 16 + vd) :: p.1, p.2))
              | _, _, _, _ => none
            | _ => none
          else
            match jsonEscape e with
            | some ch => (parseStrBody fuel rest2).map (fun p => (ch :: p.1, p.2))
            | none => none
      else if c.toNat < 32 then none
      else (parseStrBody fuel rest).map (fun p => (c :: p.1, p.2))

/-- Parse a JSON number token (strict grammar `-?(0|[1-9][0-9]*)(\.[0-9]+)?([eE][+-]?[0-9]+)?`),
returning its lexeme and the remainder.  An invalid fraction/exponent suffix is
left unconsumed, so the caller's this-must-end-here check rejects it, exactly
as `JSON.parse` rejects e.g. `1.` and `1e`. -/
def parseNumTok (cs : List Char) : Option (List Char × List Char) :=
  let (sgn, cs1) := match cs with
    | c :: r => if c = '-' then ([c], r) else ([], cs)
    | [] => ([], [])
  match cs1 with
  | [] => none
  | c :: r =>
    if ¬ isDigitCh c then none
    else
      let (intPart, cs2) :=
        if c = '0' then ([c], r)
        else (c :: r.takeWhile isDigitCh, r.dropWhile isDigitCh)
      let (fracPart, cs3) :=
        match cs2 with
        | p :: r2 =>
          if p = '.' && (r2.takeWhile isDigitCh) ≠ [] then
            (p :: r2.takeWhile isDigitCh, r2.dropWhile isDigitCh)
          else ([], cs2)
        | [] => ([], cs2)
      let (expPart, cs4) :=
        match cs3 with
        | e :: r3 =>
          if e = 'e' || e = 'E' then
            let (sg, r4) := match r3 with
              | s :: r5 => if s = '+' || s = '-' then ([s], r5) else ([], r3)
              | [] => ([], r3)
            if (r4.takeWhile isDigitCh) ≠ [] then
              (e :: (sg ++ r4.takeWhile isDigitCh), r4.dropWhile isDigitCh)
            else ([], cs3)
          else ([], cs3)
        | [] => ([], cs3)
      some (sgn ++ intPart ++ fracPart ++ expPart, cs4)

mutual
/-- Parse one JSON value (leading whitespace allowed), returning the value and
the unconsumed remainder.  `fuel` only guards recursion; `jsonParse` supplies
enough fuel that it never runs out on its input. -/
def parseJVal (fuel : Nat) (cs : List Char) : Option (Json × List Char) :=
  match fuel with
  | 0 => none
  | fuel + 1 =>
    match skipJsonWs cs with
    | 'n' :: 'u' :: 'l' :: 'l' :: r => some (Json.null, r)
    | 't' :: 'r' :: 'u' :: 'e' :: r => some (Json.jbool true, r)
    | 'f' :: 'a' :: 'l' :: 's' :: 'e' :: r => some (Json.jbool false, r)
    | c :: r =>
      if c = qChar then
        (parseStrBody (r.length + 1) r).map (fun p => (Json.jstr (String.mk p.1), p.2))
      else if c = lbChar then
        match skipJsonWs r with
        | c2 :: r2 =>
          if c2 = rbChar then some (Json.jobj [], r2)
          else
            (parseJMembers fuel (c2 :: r2)).map (fun p => (Json.jobj p.1, p.2))
        | [] => none
      else if c = '[' then
        match skipJsonWs r with
        | c2 :: r2 =>
          if c2 = ']' then some (Json.jarr [], r2)
          else
            (parseJElems fuel (c2 :: r2)).map (fun p => (Json.jarr p.1, p.2))
        | [] => none
      else if c = '-' || isDigitCh c then
        (parseNumTok (c :: r)).map (fun p => (Json.jnum (String.mk p.1), p.2))
      else none
    | [] => none

/-- Parse one-or-more comma-separated array elements up to the closing bracket. -/
def parseJElems (fuel : Nat) (cs : List Char) : Option (List Json × List Char) :=
  match fuel with
  | 0 => none
  | fuel + 1 =>
    match parseJVal fuel cs with
    | none => none
    | some (v, r) =>
      match skipJsonWs r with
      | ',' :: r2 =>
        (parseJElems fuel r2).map (fun p => (v :: p.1, p.2))
      | ']' :: r2 => some ([v], r2)
      | _ => none

/-- Parse one-or-more comma-separated object members up to the closing brace. -/
def parseJMembers (fuel : Nat) (cs : List Char) : Option (List (String × Json) × List Char) :=
  match fuel with
  | 0 => none
  | fuel + 1 =>
    match skipJsonWs cs with
    | c :: r =>
      if c = qChar then
        match parseStrBody (r.length + 1) r with
        | none => none
        | some (key, r1) =>
          match skipJsonWs r1 with
          | ':' :: r2 =>
            match parseJVal fuel r2 with
            | none => none
            | some (v, r3) =>
              match skipJsonWs r3 with
              | ',' :: r4 =>
                (parseJMembers fuel r4).map (fun p => ((String.mk key, v) :: p.1, p.2))
              | c4 :: r4 =>
                if c4 = rbChar then some ([(String.mk key, v)], r4) else none
              | [] => none
          | _ => none
      else none
    | [] => none
end

/-- `JSON.parse(s)` as a partial function: `none` is a thrown `SyntaxError`.
The whole input must be consumed (up to trailing whitespace). -/
def jsonParse (s : String) : Option Json :=
  match parseJVal (2 * s.data.length + 2) s.data with
  | some (v, rest) => if (skipJsonWs rest).isEmpty then some v else none
  | none => none

example : jsonParse "null" = some Json.null := by rfl
example : jsonParse " 17 " = some (Json.jnum "17") := by rfl
example : jsonParse "\x7b\"a\":[1,true]\x7d" =
    some (Json.jobj [("a", Json.jarr [Json.jnum "1", Json.jbool true])]) := by rfl
example : jsonParse "\x7b\"a\":1,\"a\":2\x7d" =
    some (Json.jobj [("a", Json.jnum "1"), ("a", Json.jnum "2")]) := by rfl
example : jsObjGet [("a", Json.jnum "1"), ("a", Json.jnum "2")] "a" = some (Json.jnum "2") := by rfl
example : jsonParse "\x7b\"x\\\"action\" : \"y\"\x7d" =
    some (Json.jobj [(String.mk ['x', qChar, 'a', 'c', 't', 'i', 'o', 'n'], Json.jstr "y")]) := by
  rfl
example : jsonParse "01" = none := by rfl
example : jsonParse "1." = none := by rfl
example : jsonParse "\x7b\"a\":1\x7d extra" = none := by rfl
example : jsonParse "" = none := by rfl

/-- Left-to-right scanner for the first `replace` pass of `_parseJsonCommand`:
the global, case-insensitive regex deleting every code-fence marker (three
backticks, an optional `json` tag, and any following whitespace).  The
`skipping` flag is true while inside the `\s*` tail of a match, so the run of
whitespace after a fence is dropped exactly as the regex engine consumes it. -/
def stripFLoop (dropping : Nat) (skipping : Bool) (cs : List Char) : List Char :=
  match dropping, cs with
  | _, [] => []
  | n + 1, _ :: rest => stripFLoop n skipping rest
  | 0, c :: rest =>
    if c = btChar && rest.take 2 = [btChar, btChar] then
      let extra := if ((rest.drop 2).take 4).map Char.toLower = ['j', 's', 'o', 'n'] then 6 else 2
      stripFLoop extra true rest
    else if skipping && jsWs c then stripFLoop 0 true rest
    else c :: stripFLoop 0 false rest

/-- `text.replace` with the fence regex, on character lists. -/
def stripFences (cs : List Char) : List Char := stripFLoop 0 false cs

/-- Left-to-right scanner for the second `replace` pass: the global regex
deleting every bare 3-backtick run (a no-op after `stripFences`, kept for
faithfulness to the source). -/
def stripBLoop (dropping : Nat) (cs : List Char) : List Char :=
  match dropping, cs with
  | _, [] => []
  | n + 1, _ :: rest => stripBLoop n rest
  | 0, c :: rest =>
    if c = btChar && rest.take 2 = [btChar, btChar] then stripBLoop 2 rest
    else c :: stripBLoop 0 rest

/-- `text.replace` with the bare-fence regex, on character lists. -/
def stripBareFences (cs : List Char) : List Char := stripBLoop 0 cs

/-- The literal characters `"action"` (with its double quotes). -/
def actionLit : List Char := [qChar, 'a', 'c', 't', 'i', 'o', 'n', qChar]

/-- Whether the tail of the command-object regex — `"action"` then `\s*`, a
colon, `\s*`, and a double-quoted value with at least one character before its
closing quote — matches at the head of `cs`. -/
def actionPatAt (cs : List Char) : Bool :=
  if actionLit.isPrefixOf cs then
    match ((cs.drop 8).dropWhile jsWs) with
    | ':' :: r2 =>
      match r2.dropWhile jsWs with
      | c :: r4 =>
        if c = qChar then
          !(r4.takeWhile (fun x => x ≠ qChar)).isEmpty &&
            !(r4.dropWhile (fun x => x ≠ qChar)).isEmpty
        else false
      | [] => false
    | _ => false
  else false

/-- Scan the characters after a candidate opening brace: the regex body
`[^{}]*"action"...` matches if the action pattern occurs before any further
brace character. -/
def innerScan (cs : List Char) : Bool :=
  match cs with
  | [] => false
  | c :: r =>
    if actionPatAt (c :: r) then true
    else if c = lbChar || c = rbChar then false
    else innerScan r

/-- Leftmost match of the source regex `\{[^{}]*"action"\s*:\s*"[^"]+"` as the
suffix beginning at the matched opening brace.  (The source computes
`cleaned.indexOf(match[0])`; since the regex engine returns the leftmost match
and any earlier occurrence of the matched text would itself match the pattern,
that index is exactly the leftmost match position modelled here.) -/
def cmdScan (cs : List Char) : Option (List Char) :=
  match cs with
  | [] => none
  | c :: r => if c = lbChar && innerScan r then some (c :: r) else cmdScan r

/-- The source's forward brace walk: starting from the match position, find the
first index at which the running brace depth returns to zero. -/
def braceWalk (cs : List Char) (depth : Int) (idx : Nat) : Option Nat :=
  match cs with
  | [] => none
  | c :: r =>
    let d := depth + (if c = lbChar then 1 else 0) - (if c = rbChar then 1 else 0)
    if d = 0 then some idx else braceWalk r d (idx + 1)

/-- The second `try` block of `_parseJsonCommand`: find the command regex
match, walk to the balancing brace, and `JSON.parse` the slice; any failure on
the way (or a throwing parse) is the source's caught-and-`null` path. -/
def cmdFallback (cleaned : List Char) : Option Json :=
  match cmdScan cleaned with
  | none => none
  | some suffix =>
    match braceWalk suffix 0 0 with
    | none => none
    | some i => jsonParse (String.mk (suffix.take (i + 1)))

/-- The `cleaned` local of `_parseJsonCommand`: both fence-stripping
`replace`s followed by `trim`. -/
def cleanedText (text : String) : List Char :=
  trimList (stripBareFences (stripFences text.data))

/-- `_parseJsonCommand` from `llm.js`: strip code fences and trim; try a
whole-text `JSON.parse` requiring a truthy `action`; otherwise scan for an
embedded command object and parse its brace-balanced extent; `none` is the
source's `null` (every thrown `JSON.parse` error is caught there). -/
def _parseJsonCommand (text : String) : Option Json :=
  if text.isEmpty then none
  else
    match jsonParse (String.mk (cleanedText text)) with
    | some full =>
      if jsTruthy full && jsTruthyOpt (jsGet full "action") then some full
      else cmdFallback (cleanedText text)
    | none => cmdFallback (cleanedText text)

/-- The research epilogue's regex `\{[\s\S]*\}`: from the first opening brace
through the last closing brace, if both exist in that order. -/
def greedyBraceSlice (cs : List Char) : Option (List Char) :=
  let suffix := cs.dropWhile (fun c => c ≠ lbChar)
  match suffix with
  | [] => none
  | _ =>
    match suffix.reverse.dropWhile (fun c => c ≠ rbChar) with
    | [] => none
    | revTail => some revTail.reverse

example : _parseJsonCommand "\x7b\"action\":\"done\",\"summary\":\"hi\"\x7d" =
    some (Json.jobj [("action", Json.jstr "done"), ("summary", Json.jstr "hi")]) := by rfl
example : _parseJsonCommand "" = none := by rfl
example : _parseJsonCommand "no json here" = none := by rfl
example : _parseJsonCommand "x \x7b\"action\":\"read\",\"url\":\"u\"\x7d y" =
    some (Json.jobj [("action", Json.jstr "read"), ("url", Json.jstr "u")]) := by rfl

/-- A tool dispatch issued by the research loop: the argument passed to
`searchTools.search` (`cmd.query || topic`) or `searchTools.fetchPage`
(`cmd.url || ""`). -/
inductive RCmd where
  | search (arg : Json)
  | read (arg : Json)

/-- Observable outcome of one `research(topic)` run: the tool dispatches it
performed, the number of reasoning-loop iterations executed, and the returned
summary string. -/
structure RunResult where
  dispatches : List RCmd
  iterations : Nat
  summary : String

/-- The epilogue of `research` after the step loop ends without `done`: push
the forcing instruction, take one more completion `finalResp`, try to extract
a `summary` from its first-to-last-brace slice, and fall back to the raw
truncated text.  A `JSON.parse` failure is caught by the source's `try`. -/
def forcedSummary (finalResp : String) : String :=
  match greedyBraceSlice finalResp.data with
  | some sub =>
    match jsonParse (String.mk sub) with
    | some cmd =>
      if jsTruthyOpt (jsGet cmd "summary") then
        jsSlice (jsToString (jsOr (jsGet cmd "summary") Json.null)) 1500
      else jsSlice finalResp 1500
    | none => jsSlice finalResp 1500
  | none => jsSlice finalResp 1500

/-- One-or-more steps of the `research` reasoning loop, translated from the
`for (let step = 0; step < maxResearchSteps; step++)` body.  The chat model is
an oracle `replies : Nat → String` giving the text of the `idx`-th completion
of the run (the loop is sequential, so completions are consumed in order; the
prompt text appended between calls does not influence the embedded control
flow).  `budget` is `maxResearchSteps - step`; `step` is carried only for the
first-iteration format nudge. -/
def researchLoop (replies : Nat → String) (idx step budget : Nat) : RunResult :=
  match budget with
  | 0 =>
    -- step limit reached: forcing instruction + one final completion
    { dispatches := [], iterations := 0, summary := forcedSummary (replies idx) }
  | b + 1 =>
    let response0 := replies idx
    let cmd0 := _parseJsonCommand response0
    -- `if (!cmd && step === 0)`: one corrective nudge, one extra completion
    let nudged := cmd0.isNone && step = 0
    let response := if nudged then replies (idx + 1) else response0
    let cmd := if nudged then _parseJsonCommand (replies (idx + 1)) else cmd0
    let idxNext := if nudged then idx + 2 else idx + 1
    match cmd with
    | none => { dispatches := [], iterations := 1, summary := jsSlice response 1500 }
    | some c =>
      let act := jsGet c "action"
      if ¬ jsTruthyOpt act then
        -- `if (!cmd || !cmd.action)`
        { dispatches := [], iterations := 1, summary := jsSlice response 1500 }
      else if jsStrEq act "done" then
        { dispatches := [], iterations := 1,
          summary := jsSlice (jsToString (jsOr (jsGet c "summary") (Json.jstr response))) 1500 }
      else if jsStrEq act "search" then
        let rest := researchLoop replies idxNext (step + 1) b
        { dispatches := RCmd.search (jsOr (jsGet c "query") (Json.jstr "(topic)")) :: rest.dispatches,
          iterations := rest.iterations + 1, summary := rest.summary }
      else if jsStrEq act "read" then
        let rest := researchLoop replies idxNext (step + 1) b
        { dispatches := RCmd.read (jsOr (jsGet c "url") (Json.jstr "")) :: rest.dispatches,
          iterations := rest.iterations + 1, summary := rest.summary }
      else
        -- unknown action: `break` out of the loop into the forcing epilogue
        { dispatches := [], iterations := 1, summary := forcedSummary (replies idxNext) }

/-- `research(topic)`: returns `""` with no model calls when no search tools
are configured, otherwise runs the bounded reasoning loop. -/
def researchModel (canSearch : Bool) (replies : Nat → String) (maxResearchSteps : Nat) :
    RunResult :=
  if canSearch then researchLoop replies 0 0 maxResearchSteps
  else { dispatches := [], iterations := 0, summary := "" }

/-- One survey option: stable `key` plus human-readable `label`. -/
structure VOption where
  key : String
  label : String

/-- The `replace(/[quote-chars]/g, "")` in `chooseVote`: delete every
apostrophe, double quote, and backtick. -/
def stripQuoteChars (s : String) : String :=
  String.mk (s.data.filter (fun c => ¬ (c = aposChar ∨ c = qChar ∨ c = btChar)))

/-- Case-insensitive equality rung of `chooseVote`: the option's label or key,
lowercased, equals the lowercased reply. -/
def ciMatches (lower : String) (o : VOption) : Bool :=
  jsLower o.label = lower || jsLower o.key = lower

/-- Substring-containment rung of `chooseVote`: the lowercased reply contains
the option's lowercased key or label. -/
def subMatches (lower : String) (o : VOption) : Bool :=
  containsSub lower.data (jsLower o.key).data || containsSub lower.data (jsLower o.label).data

/-- The pure decision tail of `chooseVote(survey, options, counts)`: given the
model's reply text, apply the recovery ladder.  `none` models the source's
`null` (only produced by `options[0]?.key || null` when no option exists or
the first option's key is the empty string). -/
def voteKeyOf (options : List VOption) (response : String) : Option String :=
  if options.any (fun o => o.key = stripQuoteChars (jsTrim response)) then
    some (stripQuoteChars (jsTrim response))
  else
    match options.find? (ciMatches (jsLower (stripQuoteChars (jsTrim response)))) with
    | some o => some o.key
    | none =>
      match options.find? (subMatches (jsLower (stripQuoteChars (jsTrim response)))) with
      | some o => some o.key
      | none =>
        match options with
        | [] => none
        | o :: _ => if o.key = "" then none else some o.key

/-- The structured suggestion assembled by `suggestOption`. -/
structure Suggestion where
  label : String
  wantsImage : Bool
  imageDescription : String

/-- The pure tail of `suggestOption(survey, existingOptions)`: extract the
first-to-last-brace slice of the reply, `JSON.parse` it, and build the
suggestion; on a missing slice or a parse error (caught by the source's
`try`), fall back to the truncated raw reply. -/
def suggestOptionModel (canGenerateImages : Bool) (response : String) : Suggestion :=
  match greedyBraceSlice response.data with
  | some sub =>
    match jsonParse (String.mk sub) with
    | some parsed =>
      { label := jsSlice (jsTrim (jsToString (jsOr (jsGet parsed "label") (Json.jstr "")))) 200,
        wantsImage := canGenerateImages && jsTruthyOpt (jsGet parsed "wantsImage"),
        imageDescription := jsTrim (jsToString (jsOr (jsGet parsed "imageDescription") (Json.jstr ""))) }
    | none => { label := jsSlice response 200, wantsImage := false, imageDescription := "" }
  | none => { label := jsSlice response 200, wantsImage := false, imageDescription := "" }


/-- Search-module retry bound (`MAX_RETRIES`). -/
def MAX_RETRIES : Nat := 3

/-- Minimum pacing / base backoff delay in milliseconds (`BASE_DELAY_MS`). -/
def BASE_DELAY_MS : Nat := 1200

/-- Maximum sanitized query length (`MAX_QUERY_LEN`). -/
def MAX_QUERY_LEN : Nat := 300

/-- Characters kept by `sanitizeQuery`'s second regex (`[^\w\s\-'",?!]` → space):
word characters, whitespace, and `- ' " , ? !`. -/
def sanitizeKeep (c : Char) : Bool :=
  ('a' ≤ c && c ≤ 'z') || ('A' ≤ c && c ≤ 'Z') || isDigitCh c || c = '_' ||
    jsWs c || c = '-' || c = aposChar || c = qChar || c = ',' || c = '?' || c = '!'

/-- Scanner for `raw.replace(/https?:\/\/\S+/gi, "")`: delete each occurrence
of `http://` or `https://` (case-insensitive) followed by at least one
non-whitespace character, together with that whole non-whitespace run.
`dropping` counts scheme characters still being deleted; `inUrl` is true while
deleting the `\S+` tail. -/
def stripUrlLoop (dropping : Nat) (inUrl : Bool) (cs : List Char) : List Char :=
  match dropping, cs with
  | _, [] => []
  | n + 1, _ :: rest => stripUrlLoop n inUrl rest
  | 0, c :: rest =>
    if inUrl && !(jsWs c) then stripUrlLoop 0 true rest
    else
      let low := ((c :: rest).take 8).map Char.toLower
      if low = ['h', 't', 't', 'p', 's', ':', '/', '/'] &&
          (match rest.drop 7 with | d :: _ => !(jsWs d) | [] => false) then
        stripUrlLoop 7 true rest
      else if low.take 7 = ['h', 't', 't', 'p', ':', '/', '/'] &&
          (match rest.drop 6 with | d :: _ => !(jsWs d) | [] => false) then
        stripUrlLoop 6 true rest
      else c :: stripUrlLoop 0 false rest

/-- Scanner for `/\s{2,}/g → " "`: a run of two or more whitespace characters
becomes a single space; a lone whitespace character is kept as-is.  `inRun` is
true while inside a run whose replacement space was already emitted. -/
def collapseWsLoop (inRun : Bool) (cs : List Char) : List Char :=
  match cs with
  | [] => []
  | c :: rest =>
    if jsWs c then
      if inRun then collapseWsLoop true rest
      else
        match rest with
        | d :: _ =>
          if jsWs d then ' ' :: collapseWsLoop true rest
          else c :: collapseWsLoop false rest
        | [] => [c]
    else c :: collapseWsLoop false rest

/-- `sanitizeQuery(raw)`: strip URLs, replace disallowed characters by spaces,
collapse whitespace runs, trim, and truncate to `MAX_QUERY_LEN`. -/
def sanitizeQuery (raw : String) : String :=
  let s1 := stripUrlLoop 0 false raw.data
  let s2 := s1.map (fun c => if sanitizeKeep c then c else ' ')
  String.mk ((trimList (collapseWsLoop false s2)).take MAX_QUERY_LEN)

/-- Outcome of one `fetch` of the search endpoint: a thrown network error, or
a response with an HTTP status and a body (`none` models a body whose
`resp.json()` rejects; the non-ok branch's `resp.text()` failure is caught in
the source and never escapes). -/
inductive FetchOut where
  | netErr
  | resp (status : Nat) (body : Option Json)

/-- `resp.ok`: HTTP status in the 2xx range. -/
def respOk (status : Nat) : Bool := 200 ≤ status && status < 300

/-- One search result as assembled by `braveSearch`'s final `map`. -/
structure BraveResult where
  title : Json
  snippet : Json
  url : Json

/-- `data.web?.results || []` followed by `.slice(0, maxResults)` and the
field map.  Accessing `.web` on a `null` body and calling `.slice` on a
truthy non-array are JS `TypeError`s (thrown); a `null` array element's
`.title` likewise throws. -/
def braveParseBody (body : Json) (maxResults : Nat) : Except Unit (List BraveResult) :=
  match body with
  | Json.null => Except.error ()
  | _ =>
    let results := jsOr (match jsGet body "web" with
      | some w =>
        match w with
        | Json.null => none
        | _ => jsGet w "results"
      | none => none) (Json.jarr [])
    match results with
    | Json.jarr elems =>
      (elems.take maxResults).foldr
        (fun e acc =>
          match acc with
          | Except.error u => Except.error u
          | Except.ok l =>
            match e with
            | Json.null => Except.error ()
            | _ =>
              Except.ok
                ({ title := jsOr (jsGet e "title") (Json.jstr ""),
                   snippet := jsOr (jsGet e "description") (Json.jstr ""),
                   url := jsOr (jsGet e "url") (Json.jstr "") } :: l))
        (Except.ok [])
    | _ => Except.error ()

/-- Trace of one `braveSearch` call: how many `fetch` attempts ran, the
backoff waits performed before retries, and the outcome (`Except.error` is a
thrown exception propagating out of `braveSearch`). -/
structure BraveTrace where
  attempts : Nat
  waits : List Nat
  outcome : Except Unit (List BraveResult)

/-- The retry loop of `braveSearch` (`for attempt = 0..MAX_RETRIES`): before
every non-first attempt wait `BASE_DELAY_MS * 2 ^ (attempt - 1)`; a 429 with
retries left continues; any other non-ok response returns `[]`; an ok response
parses the body.  `fuel` is `MAX_RETRIES + 1 - attempt`; the `fuel = 0` case
is the loop's unreachable trailing `return []`. -/
def braveLoop (oracle : Nat → FetchOut) (maxResults : Nat) (attempt fuel : Nat) : BraveTrace :=
  match fuel with
  | 0 => { attempts := 0, waits := [], outcome := Except.ok [] }
  | f + 1 =>
    let waitsHere : List Nat :=
      if attempt > 0 then [BASE_DELAY_MS * 2 ^ (attempt - 1)] else []
    match oracle attempt with
    | FetchOut.netErr => { attempts := 1, waits := waitsHere, outcome := Except.error () }
    | FetchOut.resp status body =>
      if status = 429 && attempt < MAX_RETRIES then
        let rest := braveLoop oracle maxResults (attempt + 1) f
        { attempts := rest.attempts + 1, waits := waitsHere ++ rest.waits,
          outcome := rest.outcome }
      else if ¬ respOk status then
        { attempts := 1, waits := waitsHere, outcome := Except.ok [] }
      else
        match body with
        | none => { attempts := 1, waits := waitsHere, outcome := Except.error () }
        | some data =>
          { attempts := 1, waits := waitsHere, outcome := braveParseBody data maxResults }

/-- `braveSearch(query, {apiKey, maxResults})`: short-circuit on a missing key
or an empty sanitized query, otherwise run the retry loop. -/
def braveSearchModel (oracle : Nat → FetchOut) (apiKey query : String) (maxResults : Nat) :
    BraveTrace :=
  if apiKey.isEmpty then { attempts := 0, waits := [], outcome := Except.ok [] }
  else if (sanitizeQuery query).isEmpty then { attempts := 0, waits := [], outcome := Except.ok [] }
  else braveLoop oracle maxResults 0 (MAX_RETRIES + 1)

/-- The `search(query)` wrapper from `createSearchTools`: every exception from
the body (pacing + `braveSearch`) is caught and becomes `[]`. -/
def searchResultOf (oracle : Nat → FetchOut) (apiKey query : String) (maxResults : Nat) :
    List BraveResult :=
  match (braveSearchModel oracle apiKey query maxResults).outcome with
  | Except.ok l => l
  | Except.error _ => []

/-- The pacing head of `createSearchTools.search`, for one call in isolation:
with pacing state `last` (`lastSearchMs`) and a call whose pacing check runs
at clock time `arrival`, the underlying request starts at `last + BASE_DELAY_MS`
if the elapsed time is below the interval (the call sleeps the remaining
delta), and at `arrival` otherwise.  `lastSearchMs` is then set to the start
time. -/
def paceStart (last arrival : Int) : Int :=
  if arrival - last < (BASE_DELAY_MS : Int) then last + (BASE_DELAY_MS : Int) else arrival

/-- Sequential (non-overlapping) search calls: thread the pacing state through
a list of arrival times, collecting each call's request start time. -/
def paceRun (last : Int) (arrivals : List Int) : List Int :=
  match arrivals with
  | [] => []
  | a :: rest =>
    let s := paceStart last a
    s :: paceRun s rest

/-- Two overlapping `search` calls through one `createSearchTools` instance,
on the JS event loop: caller `A` runs the pacing check at time `arrA`, caller
`B` at `arrB` (with `arrA ≤ arrB`).  `lastSearchMs` is written only when a
call's request starts (after its `await sleep`), so if `B`'s check runs
before `A`'s request has started (`arrB < paceStart last arrA`), `B` reads
the stale `last` value; otherwise `B` reads `A`'s start time.  Returns the
two request start times. -/
def twoCallStarts (last arrA arrB : Int) : Int × Int :=
  let sA := paceStart last arrA
  let sB := if arrB < sA then paceStart last arrB else paceStart sA arrB
  (sA, sB)

/-- Image-generation environment: oracles for each network interaction a
`generateImage` call can perform. -/
structure ImgEnv where
  /-- The Imagen `:predict` fetch (gemini-native backend). -/
  predict : FetchOut
  /-- The object-store `POST /upload` fetch (gemini-native backend). -/
  upload : FetchOut
  /-- The prompt-refining chat completion (anthropic-refine backend);
  `Except.error` is a thrown `ProviderError`. -/
  refineChat : Except Unit String
  /-- The `images.generate` call (openai-compat backend): thrown error or
  response value. -/
  compatGen : Except Unit Json

/-- Result of one backend strategy: the value returned (`none` = JS
`null`/`undefined`), or a thrown error, plus how many store uploads were
attempted. -/
structure ImgOutcome where
  result : Except Unit (Option Json)
  uploads : Nat

/-- `_generateImageOpenAICompat`: `null` without a client; otherwise the
`images.generate` call, then `resp.data[0]?.url || null` (where `.data` being
`null`/`undefined` makes the `[0]` index throw). -/
def compatBackend (hasClient : Bool) (env : ImgEnv) : ImgOutcome :=
  if ¬ hasClient then { result := Except.ok none, uploads := 0 }
  else
    match env.compatGen with
    | Except.error _ => { result := Except.error (), uploads := 0 }
    | Except.ok resp =>
      match jsGet resp "data" with
      | none => { result := Except.error (), uploads := 0 }
      | some d =>
        match d with
        | Json.null => { result := Except.error (), uploads := 0 }
        | Json.jarr elems =>
          let url :=
            match elems with
            | [] => none
            | e :: _ =>
              match e with
              | Json.null => none
              | _ => jsGet e "url"
          { result := Except.ok (if jsTruthyOpt url then url else none), uploads := 0 }
        | Json.jobj ms =>
          -- JS `d[0]` on a plain object is the member lookup `d["0"]`
          let url :=
            match jsObjGet ms "0" with
            | some e =>
              match e with
              | Json.null => none
              | _ => jsGet e "url"
            | none => none
          { result := Except.ok (if jsTruthyOpt url then url else none), uploads := 0 }
        | _ => { result := Except.ok none, uploads := 0 }
    -- (indexing `[0]` on a string/number/boolean yields a character or
    -- `undefined`, then `?.url` gives `undefined`, then `|| null` gives `null`)

/-- `_generateImageGemini`: the `:predict` call (throwing on a non-ok
status), `data.predictions?.[0]?.bytesBase64Encoded`, the `IMAGE_STORE_URL`
guard, and the upload whose non-ok status throws.  `imageStoreURL = ""`
models an unset `IMAGE_STORE_URL`. -/
def geminiBackend (imageStoreURL : String) (env : ImgEnv) : ImgOutcome :=
  match env.predict with
  | FetchOut.netErr => { result := Except.error (), uploads := 0 }
  | FetchOut.resp status body =>
    if ¬ respOk status then { result := Except.error (), uploads := 0 }
    else
      match body with
      | none => { result := Except.error (), uploads := 0 }
      | some data =>
        let b64 : Option Json :=
          match data with
          | Json.null => none
          | _ =>
            match jsGet data "predictions" with
            | none => none
            | some p =>
              match p with
              | Json.jarr (e :: _) =>
                match e with
                | Json.null => none
                | _ => jsGet e "bytesBase64Encoded"
              | _ => none
        if ¬ jsTruthyOpt b64 then { result := Except.ok none, uploads := 0 }
        else if imageStoreURL.isEmpty then { result := Except.ok none, uploads := 0 }
        else
          match env.upload with
          | FetchOut.netErr => { result := Except.error (), uploads := 1 }
          | FetchOut.resp ustatus ubody =>
            if ¬ respOk ustatus then { result := Except.error (), uploads := 1 }
            else
              match ubody with
              | none => { result := Except.error (), uploads := 1 }
              | some u =>
                match u with
                | Json.null => { result := Except.error (), uploads := 1 }
                | _ => { result := Except.ok (jsGet u "url"), uploads := 1 }

/-- `_generateImageClaudeRefine`: the refining chat call (whose thrown
`ProviderError` propagates), the render-client guard, then delegation to the
openai-compat strategy. -/
def refineBackend (hasRenderClient : Bool) (env : ImgEnv) : ImgOutcome :=
  match env.refineChat with
  | Except.error _ => { result := Except.error (), uploads := 0 }
  | Except.ok _ =>
    if ¬ hasRenderClient then { result := Except.ok none, uploads := 0 }
    else compatBackend true env

/-- Backend dispatch inside `generateImage`'s `try`: the source compares the
`imgBackend` string, defaulting to the openai-compat strategy. -/
def backendRun (imgBackend imageStoreURL : String) (hasImgClient hasRenderClient : Bool)
    (env : ImgEnv) : ImgOutcome :=
  if imgBackend = "gemini-native" then geminiBackend imageStoreURL env
  else if imgBackend = "anthropic-refine" then refineBackend hasRenderClient env
  else compatBackend hasImgClient env

/-- `generateImage(description)`: `null` when image generation is
unavailable; otherwise run the configured backend with every thrown error
caught and converted to `null`.  Returns the produced url value (`none` = JS
`null`) and the number of store uploads attempted. -/
def generateImageModel (canGenerateImages : Bool) (imgBackend imageStoreURL : String)
    (hasImgClient hasRenderClient : Bool) (env : ImgEnv) : Option Json × Nat :=
  if ¬ canGenerateImages then (none, 0)
  else
    match (backendRun imgBackend imageStoreURL hasImgClient hasRenderClient env).result with
    | Except.error _ =>
      (none, (backendRun imgBackend imageStoreURL hasImgClient hasRenderClient env).uploads)
    | Except.ok v =>
      (v, (backendRun imgBackend imageStoreURL hasImgClient hasRenderClient env).uploads)

/-- The scenario option list from the specification: `[a ↦ Red, b ↦ Blue]`. -/
def demoOptions : List VOption := [{ key := "a", label := "Red" }, { key := "b", label := "Blue" }]

/-- A reply that parses as JSON to an object *without* an `action` member —
the quoted text `"action"` only occurs inside an escaped string — yet also
matches the substring-recovery regex. -/
def cxCmdText : String := "\x7b\"x\\\"action\" : \"y\"\x7d"

/-- The object `JSON.parse` produces for `cxCmdText` (single member
`x"action` ↦ `y`). -/
def cxCmdObj : Json :=
  Json.jobj [(String.mk ['x', qChar, 'a', 'c', 't', 'i', 'o', 'n'], Json.jstr "y")]

/-- A well-formed `search` command whose object nests a brace before the
`action` member. -/
def proseCmdText : String := "\x7b\"query\":\x7b\"x\":1\x7d,\"action\":\"search\"\x7d"

/-- The value `JSON.parse` produces for `proseCmdText`. -/
def proseCmdObj : Json :=
  Json.jobj [("query", Json.jobj [("x", Json.jnum "1")]), ("action", Json.jstr "search")]

/-- Reply stream for the unknown-action scenario: the first completion is a
recognized-but-unknown `quit` action, the next is the forced final completion. -/
def repliesUnknown : Nat → String :=
  fun i => if i = 0 then "\x7b\"action\":\"quit\"\x7d" else "final text"

/-- Erroring image environment: the first network call of every backend throws. -/
def imgEnvErr : ImgEnv :=
  { predict := FetchOut.netErr, upload := FetchOut.netErr,
    refineChat := Except.error (), compatGen := Except.error () }

/-- A suggestion reply asking for an image, used to witness the
`wantsImage → canGenerateImages` clamp. -/
def wantsImageReply : String :=
  "\x7b\"label\":\"Add dark mode\",\"wantsImage\":true,\"imageDescription\":\"d\"\x7d"

/-! ## Theorems -/

theorem jsSlice_length_le (s : String) (n : Nat) : (jsSlice s n).length ≤ n := by
  simp only [jsSlice, String.length, List.length_take]
  exact Nat.min_le_left _ _

theorem forcedSummary_length_le (r : String) : (forcedSummary r).length ≤ 1500 := by
  unfold forcedSummary
  repeat' split
  all_goals apply jsSlice_length_le

theorem researchLoop_counts (replies : Nat → String) (b : Nat) : ∀ idx step,
    (researchLoop replies idx step b).dispatches.length ≤
      (researchLoop replies idx step b).iterations
    ∧ (researchLoop replies idx step b).iterations ≤ b := by
  induction b with
  | zero => intro idx step; simp [researchLoop]
  | succ b ih =>
    intro idx step
    simp only [researchLoop]
    split
    · simp
    · split
      · simp
      · split
        · simp
        · split
          · -- search branch
            have h := ih (if (_parseJsonCommand (replies idx)).isNone && step = 0 then idx + 2 else idx + 1) (step + 1)
            simp only [List.length_cons]
            omega
          · split
            · -- read branch
              have h := ih (if (_parseJsonCommand (replies idx)).isNone && step = 0 then idx + 2 else idx + 1) (step + 1)
              simp only [List.length_cons]
              omega
            · simp

theorem researchLoop_summary_le (replies : Nat → String) (b : Nat) : ∀ idx step,
    (researchLoop replies idx step b).summary.length ≤ 1500 := by
  induction b with
  | zero => intro idx step; simp only [researchLoop]; exact forcedSummary_length_le _
  | succ b ih =>
    intro idx step
    simp only [researchLoop]
    split
    · exact jsSlice_length_le _ _
    · split
      · exact jsSlice_length_le _ _
      · split
        · exact jsSlice_length_le _ _
        · split
          · exact ih _ _
          · split
            · exact ih _ _
            · exact forcedSummary_length_le _

/-- C1: for every step budget `N` and every sequence of model replies, one
`research(topic)` run performs at most `N` reasoning-loop iterations, and
hence issues at most `N` `Search`/`Read` dispatches, before the forcing
instruction and the returned summary; the loop is a total function of the
reply stream, so it never runs unboundedly even if no `done` command ever
arrives. -/
theorem research_step_bound (canSearch : Bool) (replies : Nat → String) (N : Nat) :
    (researchModel canSearch replies N).iterations ≤ N
    ∧ (researchModel canSearch replies N).dispatches.length ≤ N := by
  unfold researchModel
  split
  · have h := researchLoop_counts replies N 0 0
    exact ⟨h.2, le_trans h.1 h.2⟩
  · simp

/-- C5: every terminal path of `research` — `done` (with its summary
truncated), an unparsable reply, an unknown action, or the forced summary
after exhaustion — returns a string of at most 1500 characters. -/
theorem research_summary_bounded (canSearch : Bool) (replies : Nat → String) (N : Nat) :
    (researchModel canSearch replies N).summary.length ≤ 1500 := by
  unfold researchModel
  split
  · exact researchLoop_summary_le replies N 0 0
  · simp

/-- C9: if at some reasoning step the parsed command carries a truthy `action`
that is none of `search`, `read`, `done`, the run breaks out of the loop at
that iteration: no further `Search`/`Read` dispatch is made (the dispatch list
of the remaining run is empty) and the run returns through the
forced-summary epilogue on the very next completion. -/
theorem research_unknown_action (replies : Nat → String) (idx step b : Nat) (c : Json)
    (h1 : _parseJsonCommand (replies idx) = some c)
    (h2 : jsTruthyOpt (jsGet c "action") = true)
    (h3 : jsStrEq (jsGet c "action") "done" = false)
    (h4 : jsStrEq (jsGet c "action") "search" = false)
    (h5 : jsStrEq (jsGet c "action") "read" = false) :
    researchLoop replies idx step (b + 1) =
      { dispatches := [], iterations := 1, summary := forcedSummary (replies (idx + 1)) } := by
  simp [researchLoop, h1, h2, h3, h4, h5]

/-- Witness for C9: a first reply carrying the unknown action `quit` ends the
run at once — even with five steps of budget left — with no dispatches, and
the summary comes from the forced epilogue on the next completion. -/
theorem research_unknown_action_witness :
    researchLoop repliesUnknown 0 0 6 =
      { dispatches := [], iterations := 1, summary := forcedSummary (repliesUnknown 1) } := by
  exact research_unknown_action repliesUnknown 0 0 5
    (Json.jobj [("action", Json.jstr "quit")]) rfl rfl rfl rfl rfl

theorem cmdScan_head (cs suffix : List Char) (h : cmdScan cs = some suffix) :
    ∃ r, suffix = lbChar :: r := by
  induction cs with
  | nil => simp [cmdScan] at h
  | cons c tl ih =>
    rw [cmdScan] at h
    split at h
    · rename_i hc
      exact ⟨tl, by injection h with h2; rw [← h2]; simp_all⟩
    · exact ih h

theorem parseJVal_brace (fuel : Nat) (r rest : List Char) (v : Json)
    (h : parseJVal fuel (lbChar :: r) = some (v, rest)) : ∃ ms, v = Json.jobj ms := by
  match fuel with
  | 0 => simp [parseJVal] at h
  | f + 1 =>
    have hws : skipJsonWs (lbChar :: r) = lbChar :: r := by
      have hb : jsonWs lbChar = false := by decide
      simp [skipJsonWs, List.dropWhile_cons, hb]
    rw [parseJVal] at h
    rw [hws] at h
    split at h
    · rename_i heq; injection heq with h1; exact absurd h1 (by decide)
    · rename_i heq; injection heq with h1; exact absurd h1 (by decide)
    · rename_i heq; injection heq with h1; exact absurd h1 (by decide)
    · rename_i c r2 heq
      injection heq with h1 h2
      subst h1; subst h2
      rw [if_neg (by decide), if_pos rfl] at h
      split at h
      · rename_i c2 r3 heq2
        split at h
        · injection h with h3
          cases h3
          exact ⟨[], rfl⟩
        · simp only [Option.map_eq_some'] at h
          obtain ⟨p, hp, hv⟩ := h
          cases hv
          exact ⟨p.1, rfl⟩
      · simp at h
    · simp at h

theorem jsonParse_brace (s : String) (r : List Char) (hd : s.data = lbChar :: r)
    (v : Json) (h : jsonParse s = some v) : ∃ ms, v = Json.jobj ms := by
  unfold jsonParse at h
  rw [hd] at h
  cases hp : parseJVal (2 * (lbChar :: r).length + 2) (lbChar :: r) with
  | none => rw [hp] at h; simp at h
  | some pr =>
    obtain ⟨v0, rest0⟩ := pr
    rw [hp] at h
    simp only [] at h
    split at h
    · injection h with h1
      subst h1
      exact parseJVal_brace _ _ _ _ hp
    · simp at h

theorem cmdFallback_shape (cleaned : List Char) :
    cmdFallback cleaned = none ∨ ∃ ms, cmdFallback cleaned = some (Json.jobj ms) := by
  unfold cmdFallback
  cases hs : cmdScan cleaned with
  | none => left; rfl
  | some suffix =>
    obtain ⟨r, hr⟩ := cmdScan_head _ _ hs
    simp only []
    cases hw : braceWalk suffix 0 0 with
    | none => left; rfl
    | some i =>
      cases hp : jsonParse (String.mk (suffix.take (i + 1))) with
      | none =>
        left
        show jsonParse (String.mk (suffix.take (i + 1))) = none
        exact hp
      | some v =>
        right
        have hd : (String.mk (suffix.take (i + 1))).data = lbChar :: r.take i := by
          rw [hr]; simp [List.take_succ_cons]
        obtain ⟨ms, hms⟩ := jsonParse_brace _ _ hd v hp
        refine ⟨ms, ?_⟩
        show jsonParse (String.mk (suffix.take (i + 1))) = some (Json.jobj ms)
        rw [hp, hms]

/-- C2 counterexample: the reply `{"x\"action" : "y"}` parses as JSON to an
object with no `action` member, so by the claim it must map to `Unrecognized`
(`null`); instead `_parseJsonCommand` returns that very object through the
substring-recovery branch (the regex finds the escaped `"action"` text inside
the member name), i.e. a non-null command object that carries no `action`
field. -/
theorem parse_cmd_missing_action :
    _parseJsonCommand cxCmdText = some cxCmdObj ∧ jsGet cxCmdObj "action" = none :=
  ⟨rfl, rfl⟩

/-- C2 (amended): `_parseJsonCommand` is a total function that never throws:
on every input it returns either `null` or a JSON *object* (the whole-text
branch additionally guarantees a truthy `action` member, but the
substring-recovery branch can return an object without one, as the
counterexample shows). -/
theorem parse_cmd_total_shape (text : String) :
    _parseJsonCommand text = none ∨ ∃ ms, _parseJsonCommand text = some (Json.jobj ms) := by
  unfold _parseJsonCommand
  split
  · left; rfl
  · cases hp : jsonParse (String.mk (cleanedText text)) with
    | none => exact cmdFallback_shape _
    | some full =>
      simp only []
      split
      · rename_i hcond
        have h2 : jsTruthyOpt (jsGet full "action") = true := by
          simp only [Bool.and_eq_true] at hcond
          exact hcond.2
        right
        cases full
        case jobj ms => exact ⟨ms, rfl⟩
        all_goals simp [jsGet, jsTruthyOpt] at h2
      · exact cmdFallback_shape _

theorem stripFLoop_append_btfree (ys : List Char) : ∀ xs : List Char,
    (∀ c ∈ xs, c ≠ btChar) →
    stripFLoop 0 false (xs ++ ys) = xs ++ stripFLoop 0 false ys := by
  intro xs
  induction xs with
  | nil => intro _; rfl
  | cons c tl ih =>
    intro hbt
    have hc : c ≠ btChar := hbt c (List.mem_cons_self c tl)
    rw [List.cons_append, stripFLoop]
    simp only [hc, decide_eq_true_eq, false_and, Bool.false_and, if_neg, Bool.and_eq_true,
      decide_eq_true_eq]
    rw [if_neg (by simp [hc]), if_neg (by simp)]
    rw [ih (fun x hx => hbt x (List.mem_cons_of_mem c hx))]
    rfl

theorem stripFLoop_skip : ∀ cs : List Char,
    stripFLoop 0 true cs = stripFLoop 0 false (cs.dropWhile jsWs) := by
  intro cs
  induction cs with
  | nil => rfl
  | cons c tl ih =>
    by_cases hw : jsWs c = true
    · have hc : c ≠ btChar := by
        intro h; rw [h] at hw; exact absurd hw (by decide)
      rw [stripFLoop, List.dropWhile_cons]
      simp [hc, hw, ih]
    · have hw' : jsWs c = false := by simpa using hw
      rw [List.dropWhile_cons, stripFLoop.eq_def, stripFLoop.eq_def, hw']
      simp [hw']

theorem stripBLoop_btfree : ∀ xs : List Char, (∀ c ∈ xs, c ≠ btChar) →
    stripBLoop 0 xs = xs := by
  intro xs
  induction xs with
  | nil => intro _; rfl
  | cons c tl ih =>
    intro hbt
    have hc : c ≠ btChar := hbt c (List.mem_cons_self c tl)
    rw [stripBLoop, if_neg (by simp [hc])]
    rw [ih (fun x hx => hbt x (List.mem_cons_of_mem c hx))]

theorem trimList_nl (t : List Char) :
    trimList (t.dropWhile jsWs ++ ['\n']) = trimList t := by
  by_cases he : t.dropWhile jsWs = []
  · simp [trimList, he, List.dropWhile_cons, show jsWs '\n' = true from by decide]
  · unfold trimList
    have hd : List.dropWhile jsWs (t.dropWhile jsWs ++ ['\n']) = t.dropWhile jsWs ++ ['\n'] := by
      obtain ⟨c, l', hc⟩ : ∃ c l', t.dropWhile jsWs = c :: l' := by
        cases h : t.dropWhile jsWs with
        | nil => exact absurd h he
        | cons c l' => exact ⟨c, l', rfl⟩
      have h0 := List.head?_dropWhile_not jsWs t
      rw [hc] at h0
      simp only [List.head?_cons] at h0
      rw [hc, List.cons_append, List.dropWhile_cons, h0]
      simp
    rw [hd, List.reverse_append]
    simp only [List.reverse_cons, List.reverse_nil, List.nil_append, List.singleton_append,
      List.dropWhile_cons, show jsWs '\n' = true from by decide, if_true]

theorem stripFLoop_btfree_id (xs : List Char) (hbt : ∀ c ∈ xs, c ≠ btChar) :
    stripFLoop 0 false xs = xs := by
  have h := stripFLoop_append_btfree [] xs hbt
  rw [List.append_nil] at h
  calc stripFLoop 0 false xs = xs ++ stripFLoop 0 false [] := h
    _ = xs ++ [] := rfl
    _ = xs := List.append_nil xs

theorem fenceHead_reduce (l : List Char) :
    stripFLoop 0 false ([btChar, btChar, btChar, 'j', 's', 'o', 'n', '\n'] ++ l) =
      stripFLoop 0 true l := rfl

theorem fenceTail_reduce : stripFLoop 0 false ['\n', btChar, btChar, btChar] = ['\n'] := rfl

theorem cleanedText_fence (t : String) (hbt : ∀ c ∈ t.data, c ≠ btChar) :
    cleanedText ("```json\n" ++ t ++ "\n```") = cleanedText t := by
  have hdata : ("```json\n" ++ t ++ "\n```").data =
      [btChar, btChar, btChar, 'j', 's', 'o', 'n', '\n'] ++
        (t.data ++ ['\n', btChar, btChar, btChar]) := rfl
  have hbt1 : ∀ c ∈ t.data.dropWhile jsWs, c ≠ btChar :=
    fun c hc => hbt c (List.Sublist.subset (List.dropWhile_sublist _) hc)
  unfold cleanedText
  rw [hdata]
  unfold stripFences
  rw [fenceHead_reduce, stripFLoop_skip, List.dropWhile_append]
  by_cases he : (t.data.dropWhile jsWs).isEmpty
  · rw [if_pos he]
    have h1 : List.dropWhile jsWs ['\n', btChar, btChar, btChar] = [btChar, btChar, btChar] := by
      decide
    have h2 : stripFLoop 0 false [btChar, btChar, btChar] = [] := rfl
    rw [h1, h2]
    have h3 : stripFLoop 0 false t.data = t.data := stripFLoop_btfree_id t.data hbt
    rw [h3]
    unfold stripBareFences
    have h4 : stripBLoop 0 t.data = t.data := stripBLoop_btfree t.data hbt
    rw [h4]
    have h5 : t.data.dropWhile jsWs = [] := by simpa using he
    show trimList [] = trimList t.data
    unfold trimList
    rw [h5]
    rfl
  · rw [if_neg he]
    rw [stripFLoop_append_btfree _ _ hbt1, fenceTail_reduce]
    unfold stripBareFences
    rw [stripBLoop_btfree _ (by
      intro c hc
      rcases List.mem_append.mp hc with h | h
      · exact hbt1 c h
      · simp only [List.mem_singleton] at h
        rw [h]; decide)]
    rw [stripFLoop_btfree_id t.data hbt, stripBLoop_btfree t.data hbt]
    exact trimList_nl t.data

/-- C4 counterexample: the reply `{"query":{"x":1},"action":"search"}` alone
parses (whole-text branch) to its `search` command; prefixing the plain prose
`Sure: ` makes the whole-text parse fail, and the recovery regex cannot cross
the nested `{"x":1}` that precedes the `action` member, so the parse result
changes from the command object to `null`. -/
theorem parse_cmd_prose_changes :
    _parseJsonCommand proseCmdText = some proseCmdObj
    ∧ _parseJsonCommand ("Sure: " ++ proseCmdText) = none :=
  ⟨rfl, rfl⟩

/-- C4 (amended): wrapping a backtick-free reply in a markdown ```json code
fence never changes the parse result (the fence-stripping pass removes exactly
the fence markers and following whitespace); prefixing prose, however, can
change the result (see the counterexample), so the invariance claim survives
only for the fence wrapping. -/
theorem parse_cmd_fence_invariant (t : String) (hbt : ∀ c ∈ t.data, c ≠ btChar) :
    _parseJsonCommand ("```json\n" ++ t ++ "\n```") = _parseJsonCommand t := by
  have hc := cleanedText_fence t hbt
  have hw : ("```json\n" ++ t ++ "\n```").isEmpty = false := by
    rw [Bool.eq_false_iff]
    intro hemp
    rw [String.isEmpty_iff] at hemp
    have hd : ("```json\n" ++ t ++ "\n```").data = [] := by rw [hemp]
    have hd2 : ("```json\n" ++ t ++ "\n```").data =
        [btChar, btChar, btChar, 'j', 's', 'o', 'n', '\n'] ++
          (t.data ++ ['\n', btChar, btChar, btChar]) := rfl
    rw [hd2] at hd
    simp at hd
  unfold _parseJsonCommand
  simp only [hw, Bool.false_eq_true, if_false]
  by_cases ht : t.isEmpty
  · rw [if_pos ht, hc]
    rw [String.isEmpty_iff] at ht
    subst ht
    rfl
  · rw [if_neg ht, hc]

/-- Witness for the amended C4: a fenced `done` command parses identically to
its unfenced form, and both yield the command object. -/
theorem parse_cmd_fence_invariant_witness :
    _parseJsonCommand ("```json\n" ++ "\x7b\"action\":\"done\",\"summary\":\"ok\"\x7d" ++ "\n```") =
      _parseJsonCommand "\x7b\"action\":\"done\",\"summary\":\"ok\"\x7d"
    ∧ _parseJsonCommand "\x7b\"action\":\"done\",\"summary\":\"ok\"\x7d" =
      some (Json.jobj [("action", Json.jstr "done"), ("summary", Json.jstr "ok")]) :=
  ⟨parse_cmd_fence_invariant "\x7b\"action\":\"done\",\"summary\":\"ok\"\x7d" (by decide), rfl⟩

theorem containsSub_nil (hay : List Char) : containsSub hay [] = true := by
  cases hay <;> rfl

theorem find_first {α : Type} (p : α → Bool) : ∀ (l : List α) (i : Nat) (hi : i < l.length),
    p (l.get ⟨i, hi⟩) = true →
    (∀ j, (hj : j < l.length) → j < i → p (l.get ⟨j, hj⟩) = false) →
    l.find? p = some (l.get ⟨i, hi⟩) := by
  intro l
  induction l with
  | nil => intro i hi; simp at hi
  | cons x xs ih =>
    intro i hi hp hprev
    cases i with
    | zero =>
      exact List.find?_cons_of_pos _ hp
    | succ i =>
      have hx : p x = false := hprev 0 (by simp) (Nat.succ_pos i)
      rw [List.find?_cons_of_neg _ (by simp [hx])]
      simp only [List.get_cons_succ] at hp ⊢
      exact ih i (by simpa using hi) hp
        (fun j hj hlt => by
          have := hprev (j + 1) (by simpa using hj) (Nat.succ_lt_succ hlt)
          simpa using this)

theorem find_none {α : Type} (p : α → Bool) (l : List α)
    (h : ∀ o ∈ l, p o = false) : l.find? p = none := by
  rw [List.find?_eq_none]
  intro x hx
  simp [h x hx]

/-- C3: the `chooseVote` recovery ladder, in order: (a) a reply that — after
`trim` and quote-stripping — exactly equals some option's key returns that
key; (b) otherwise the first option whose key or label matches the reply
case-insensitively wins; (c) otherwise the first option whose lowercased key
or label is contained in the lowercased reply wins; (d) otherwise the first
option's key is returned; and with at least one option the result is never
`null`. -/
theorem chooseVote_ladder (options : List VOption) (response : String)
    (hne : options ≠ []) :
    ((∃ o ∈ options, o.key = stripQuoteChars (jsTrim response)) →
      voteKeyOf options response = some (stripQuoteChars (jsTrim response)))
    ∧ ((∀ o ∈ options, o.key ≠ stripQuoteChars (jsTrim response)) →
      ∀ i, (hi : i < options.length) →
        ciMatches (jsLower (stripQuoteChars (jsTrim response))) (options.get ⟨i, hi⟩) = true →
        (∀ j, (hj : j < options.length) → j < i →
          ciMatches (jsLower (stripQuoteChars (jsTrim response))) (options.get ⟨j, hj⟩) = false) →
        voteKeyOf options response = some (options.get ⟨i, hi⟩).key)
    ∧ ((∀ o ∈ options, o.key ≠ stripQuoteChars (jsTrim response)) →
      (∀ o ∈ options, ciMatches (jsLower (stripQuoteChars (jsTrim response))) o = false) →
      ∀ i, (hi : i < options.length) →
        subMatches (jsLower (stripQuoteChars (jsTrim response))) (options.get ⟨i, hi⟩) = true →
        (∀ j, (hj : j < options.length) → j < i →
          subMatches (jsLower (stripQuoteChars (jsTrim response))) (options.get ⟨j, hj⟩) = false) →
        voteKeyOf options response = some (options.get ⟨i, hi⟩).key)
    ∧ ((∀ o ∈ options, o.key ≠ stripQuoteChars (jsTrim response)) →
      (∀ o ∈ options, ciMatches (jsLower (stripQuoteChars (jsTrim response))) o = false) →
      (∀ o ∈ options, subMatches (jsLower (stripQuoteChars (jsTrim response))) o = false) →
      voteKeyOf options response = some (options.head hne).key)
    ∧ (∃ k, voteKeyOf options response = some k) := by
  refine ⟨?_, ?_, ?_, ?_, ?_⟩
  · intro hex
    unfold voteKeyOf
    rw [if_pos (by simpa [List.any_eq_true] using hex)]
  · intro hno i hi hp hprev
    unfold voteKeyOf
    rw [if_neg (by simp [List.any_eq_true]; intro o ho; simpa using hno o ho)]
    rw [find_first _ options i hi hp hprev]
  · intro hno hci i hi hp hprev
    unfold voteKeyOf
    rw [if_neg (by simp [List.any_eq_true]; intro o ho; simpa using hno o ho)]
    rw [find_none _ options hci]
    rw [find_first _ options i hi hp hprev]
  · intro hno hci hsub
    unfold voteKeyOf
    rw [if_neg (by simp [List.any_eq_true]; intro o ho; simpa using hno o ho)]
    rw [find_none _ options hci, find_none _ options hsub]
    obtain ⟨o, rest, rfl⟩ : ∃ o rest, options = o :: rest := by
      cases options with
      | nil => exact absurd rfl hne
      | cons o rest => exact ⟨o, rest, rfl⟩
    have hk : o.key ≠ "" := by
      intro hk0
      have := hsub o (List.mem_cons_self o rest)
      rw [subMatches, hk0] at this
      simp [jsLower, containsSub_nil] at this
    simp [hk]
  · by_cases hx : options.any
        (fun o => o.key = stripQuoteChars (jsTrim response))
    · exact ⟨_, by unfold voteKeyOf; rw [if_pos hx]⟩
    · cases hf : options.find?
          (ciMatches (jsLower (stripQuoteChars (jsTrim response)))) with
      | some o =>
        refine ⟨o.key, ?_⟩
        unfold voteKeyOf
        rw [if_neg (by simp [hx]), hf]
      | none =>
        cases hf2 : options.find?
            (subMatches (jsLower (stripQuoteChars (jsTrim response)))) with
        | some o =>
          refine ⟨o.key, ?_⟩
          unfold voteKeyOf
          rw [if_neg (by simp [hx]), hf, hf2]
        | none =>
          obtain ⟨o, rest, rfl⟩ : ∃ o rest, options = o :: rest := by
            cases options with
            | nil => exact absurd rfl hne
            | cons o rest => exact ⟨o, rest, rfl⟩
          have hk : o.key ≠ "" := by
            intro hk0
            have := List.find?_eq_none.mp hf2 o (List.mem_cons_self o rest)
            rw [subMatches, hk0] at this
            simp [jsLower, containsSub_nil] at this
          refine ⟨o.key, ?_⟩
          unfold voteKeyOf
          rw [if_neg (by simp [hx]), hf, hf2]
          simp [hk]

/-- Witness for C3, the specification's scenario: options
`[a ↦ Red, b ↦ Blue]` and model reply `blue` give vote key `b` (the reply
case-insensitively equals the label `Blue`, rung (b) of the ladder). -/
theorem chooseVote_ladder_witness : voteKeyOf demoOptions "blue" = some "b" := by
  have h := (chooseVote_ladder demoOptions "blue" (by simp [demoOptions])).2.1
  exact h (by decide) 1 (by decide) (by decide)
    (fun j hj hlt => by
      interval_cases j
      exact (by decide :
        ciMatches (jsLower (stripQuoteChars (jsTrim "blue"))) { key := "a", label := "Red" } =
          false))

theorem braveLoop_attempts_le (oracle : Nat → FetchOut) (mr : Nat) : ∀ (f a : Nat),
    (braveLoop oracle mr a f).attempts ≤ f := by
  intro f
  induction f with
  | zero => intro a; simp [braveLoop]
  | succ f ih =>
    intro a
    rw [braveLoop]
    cases oracle a with
    | netErr => simp
    | resp status body =>
      simp only []
      split
      · have := ih (a + 1)
        simp only []
        omega
      · split
        · simp
        · cases body <;> simp

theorem braveLoop_waits_pos (oracle : Nat → FetchOut) (mr : Nat) : ∀ (f a : Nat), 1 ≤ a →
    (braveLoop oracle mr a f).waits =
      (List.range' a (braveLoop oracle mr a f).attempts).map
        (fun k => BASE_DELAY_MS * 2 ^ (k - 1)) := by
  intro f
  induction f with
  | zero => intro a ha; simp [braveLoop]
  | succ f ih =>
    intro a ha
    rw [braveLoop]
    cases oracle a with
    | netErr => simp [ha, List.range'_one, Nat.lt_of_lt_of_le Nat.zero_lt_one ha]
    | resp status body =>
      simp only []
      split
      · have h2 := ih (a + 1) (by omega)
        simp only [h2, List.range'_succ]
        simp [ha, Nat.lt_of_lt_of_le Nat.zero_lt_one ha]
      · split
        · simp [ha, List.range'_one, Nat.lt_of_lt_of_le Nat.zero_lt_one ha]
        · cases body <;> simp [ha, List.range'_one, Nat.lt_of_lt_of_le Nat.zero_lt_one ha]

theorem braveLoop_waits_zero (oracle : Nat → FetchOut) (mr f : Nat) :
    (braveLoop oracle mr 0 f).waits =
      (List.range ((braveLoop oracle mr 0 f).attempts - 1)).map
        (fun k => BASE_DELAY_MS * 2 ^ k) := by
  cases f with
  | zero => simp [braveLoop]
  | succ f =>
    rw [braveLoop]
    cases oracle 0 with
    | netErr => simp
    | resp status body =>
      simp only []
      split
      · have h2 := braveLoop_waits_pos oracle mr f 1 (le_refl 1)
        simp only [h2]
        rw [List.range'_eq_map_range]
        simp [Function.comp, Nat.add_sub_cancel_left]
      · split
        · simp
        · cases body <;> simp

theorem braveLoop_429 (oracle : Nat → FetchOut) (mr : Nat)
    (h : ∀ i, i ≤ MAX_RETRIES → ∃ b, oracle i = FetchOut.resp 429 b) :
    ∀ (f a : Nat), a + f = MAX_RETRIES + 1 →
    (braveLoop oracle mr a f).attempts = f ∧ (braveLoop oracle mr a f).outcome = Except.ok [] := by
  intro f
  induction f with
  | zero => intro a ha; simp [braveLoop]
  | succ f ih =>
    intro a ha
    obtain ⟨b, hb⟩ := h a (by simp [MAX_RETRIES] at ha ⊢; omega)
    rw [braveLoop, hb]
    simp only []
    by_cases hlt : a < MAX_RETRIES
    · rw [if_pos (by simp [hlt])]
      have h2 := ih (a + 1) (by omega)
      simp only []
      exact ⟨by rw [h2.1], h2.2⟩
    · rw [if_neg (by simp only [Bool.and_eq_true, decide_eq_true_eq]; exact fun hx => hlt hx.2)]
      rw [if_pos (by decide)]
      have hf : f = 0 := by simp [MAX_RETRIES] at ha hlt; omega
      simp [hf]

/-- C6: the `search` retry/degradation contract.  For every oracle and query:
the search request is attempted at most `MAX_RETRIES + 1 = 4` times; the
backoff waits before retries are exactly `BASE_DELAY_MS * 2^k` (1200ms,
2400ms, 4800ms, doubling from `BASE_DELAY_MS`); a thrown network error never
escapes `search` — it yields `[]`; and if the endpoint rate-limits (HTTP 429)
on every attempt, exactly 4 attempts are made and the result degrades to
`[]` rather than an exception. -/
theorem search_retry_policy (oracle : Nat → FetchOut) (apiKey query : String) (mr : Nat) :
    (braveSearchModel oracle apiKey query mr).attempts ≤ MAX_RETRIES + 1
    ∧ (braveSearchModel oracle apiKey query mr).waits =
        (List.range ((braveSearchModel oracle apiKey query mr).attempts - 1)).map
          (fun k => BASE_DELAY_MS * 2 ^ k)
    ∧ ((braveSearchModel oracle apiKey query mr).outcome = Except.error () →
        searchResultOf oracle apiKey query mr = [])
    ∧ ((∀ i, i ≤ MAX_RETRIES → ∃ b, oracle i = FetchOut.resp 429 b) →
        ¬ apiKey.isEmpty → ¬ (sanitizeQuery query).isEmpty →
        (braveSearchModel oracle apiKey query mr).attempts = MAX_RETRIES + 1
        ∧ searchResultOf oracle apiKey query mr = []) := by
  refine ⟨?_, ?_, ?_, ?_⟩
  · unfold braveSearchModel
    split
    · simp
    · split
      · simp
      · exact braveLoop_attempts_le oracle mr (MAX_RETRIES + 1) 0
  · unfold braveSearchModel
    split
    · simp
    · split
      · simp
      · exact braveLoop_waits_zero oracle mr (MAX_RETRIES + 1)
  · intro herr
    unfold searchResultOf
    rw [herr]
  · intro h429 hkey hquery
    unfold braveSearchModel searchResultOf braveSearchModel
    rw [if_neg (by simpa using hkey), if_neg (by simpa using hquery)]
    have h := braveLoop_429 oracle mr h429 (MAX_RETRIES + 1) 0 (by omega)
    exact ⟨h.1, by rw [h.2]⟩

/-- Witness for C6: an endpoint that always answers 429 produces exactly four
attempts, backoff waits `[1200, 2400, 4800]`, and an empty result list. -/
theorem search_retry_policy_witness :
    (braveSearchModel (fun _ => FetchOut.resp 429 none) "k" "dogs" 5).attempts = 4
    ∧ (braveSearchModel (fun _ => FetchOut.resp 429 none) "k" "dogs" 5).waits =
        [1200, 2400, 4800]
    ∧ searchResultOf (fun _ => FetchOut.resp 429 none) "k" "dogs" 5 = [] := by
  have h := (search_retry_policy (fun _ => FetchOut.resp 429 none) "k" "dogs" 5).2.2.2
    (fun i _ => ⟨none, rfl⟩) (by decide) (by decide)
  exact ⟨h.1, rfl, h.2⟩

/-- C7 counterexample: two concurrent callers do *not* serialize on the pacing
timestamp.  With a previous request at time 0, callers whose pacing checks run
at 100 and 150 both read the stale `lastSearchMs = 0` (the first caller only
writes it after its sleep), so both requests start at time 1200 — a gap of 0,
far below `BASE_DELAY_MS`. -/
theorem pacing_race_counterexample :
    (twoCallStarts 0 100 150).1 = 1200 ∧ (twoCallStarts 0 100 150).2 = 1200
    ∧ (twoCallStarts 0 100 150).2 - (twoCallStarts 0 100 150).1 < (BASE_DELAY_MS : Int) := by
  refine ⟨by decide, by decide, by decide⟩

/-- C7 (amended): sequential, non-overlapping `search` calls through one
instance do start at least `BASE_DELAY_MS` apart — every consecutive pair of
request starts (including against the inherited `lastSearchMs`) is spaced by
at least the interval — and a call arriving sooner than the interval waits
exactly the remaining delta, starting at `last + BASE_DELAY_MS`.  Concurrent
callers overlapping the wait window are *not* serialized (see the
counterexample). -/
theorem pacing_sequential (last : Int) (arrivals : List Int) :
    List.Chain' (fun a b => (BASE_DELAY_MS : Int) ≤ b - a) (last :: paceRun last arrivals)
    ∧ (∀ l a : Int, a - l < (BASE_DELAY_MS : Int) →
        paceStart l a = l + (BASE_DELAY_MS : Int)) := by
  have hB : (BASE_DELAY_MS : Int) = 1200 := by norm_num [BASE_DELAY_MS]
  constructor
  · induction arrivals generalizing last with
    | nil => simp [paceRun]
    | cons a rest ih =>
      simp only [paceRun]
      rw [List.chain'_cons]
      refine ⟨?_, ih (paceStart last a)⟩
      unfold paceStart
      rw [hB]
      split
      · omega
      · rename_i h
        omega
  · intro l a h
    unfold paceStart
    rw [if_pos h]

/-- Witness for the amended C7: starts `[1200, 5000]` from arrivals
`[100, 5000]` after a request at 0, and the too-soon call at 100 waited until
exactly `0 + BASE_DELAY_MS`. -/
theorem pacing_sequential_witness :
    paceRun 0 [100, 5000] = [1200, 5000]
    ∧ paceStart 0 100 = 0 + (BASE_DELAY_MS : Int) := by
  exact ⟨by decide, (pacing_sequential 0 []).2 0 100 (by decide)⟩

theorem gemini_no_store (env : ImgEnv) :
    geminiBackend "" env = { result := Except.error (), uploads := 0 }
    ∨ geminiBackend "" env = { result := Except.ok none, uploads := 0 } := by
  unfold geminiBackend
  cases env.predict with
  | netErr => left; rfl
  | resp status body =>
    simp only []
    split
    · left; rfl
    · cases body with
      | none => left; rfl
      | some data =>
        simp only []
        split
        · right; rfl
        · right
          rw [if_pos (by rfl)]

/-- C8: with the native-REST (`gemini-native`) backend and no configured
object-store endpoint, `generateImage` returns `null` and performs no upload
— regardless of what the Imagen call returns, and without inventing any
data-URI fallback; and for every backend, a thrown error inside the backend
strategy is caught by `generateImage` and converted to `null`. -/
theorem generateImage_gemini_guard (canGen hasIC hasRC : Bool) (env : ImgEnv) :
    generateImageModel canGen "gemini-native" "" hasIC hasRC env = (none, 0)
    ∧ (∀ backendStr storeURL,
        (backendRun backendStr storeURL hasIC hasRC env).result = Except.error () →
        (generateImageModel true backendStr storeURL hasIC hasRC env).1 = none) := by
  constructor
  · unfold generateImageModel
    split
    · rfl
    · have hg : backendRun "gemini-native" "" hasIC hasRC env = geminiBackend "" env := by
        unfold backendRun; rw [if_pos rfl]
      rcases gemini_no_store env with h | h <;> rw [hg, h]
  · intro bs su herr
    unfold generateImageModel
    rw [if_neg (by simp)]
    rw [herr]

/-- Witness for C8: with the erroring environment, the gemini-native backend
without a store yields `(null, 0 uploads)`, and with a store configured the
thrown predict error is still caught, yielding `null`. -/
theorem generateImage_gemini_guard_witness :
    generateImageModel true "gemini-native" "" true true imgEnvErr = (none, 0)
    ∧ (generateImageModel true "gemini-native" "store" true true imgEnvErr).1 = none := by
  have h := generateImage_gemini_guard true true true imgEnvErr
  exact ⟨h.1, h.2 "gemini-native" "store" rfl⟩

/-- C10: every suggestion built by `suggestOption` has a label of at most 200
characters (the parsed path trims then slices to 200; the fallback slices the
raw reply to 200), and `wantsImage` can be `true` only when image generation
is available — the `canGenerateImages &&` clamp forces it to `false`
otherwise, whatever the model replied.  (`label`/`imageDescription` are
`String`s and `wantsImage` a `Bool` by the type of `Suggestion`.) -/
theorem suggestOption_shape (canGen : Bool) (response : String) :
    (suggestOptionModel canGen response).label.length ≤ 200
    ∧ ((suggestOptionModel canGen response).wantsImage = true → canGen = true) := by
  unfold suggestOptionModel
  split
  · split
    · constructor
      · exact jsSlice_length_le _ _
      · intro hw
        simp only [Bool.and_eq_true] at hw
        exact hw.1
    · exact ⟨jsSlice_length_le _ _, by simp⟩
  · exact ⟨jsSlice_length_le _ _, by simp⟩

/-- Witness for C10: a reply explicitly requesting an image yields
`wantsImage = false` when generation is unavailable and `true` when it is;
the label obeys the 200-character cap. -/
theorem suggestOption_shape_witness :
    (suggestOptionModel false wantsImageReply).wantsImage = false
    ∧ (suggestOptionModel false wantsImageReply).label.length ≤ 200
    ∧ (suggestOptionModel true wantsImageReply).wantsImage = true := by
  exact ⟨rfl, (suggestOption_shape false wantsImageReply).1, rfl⟩
